import Mathlib

/-!
Verification development for the `dclextract` archive extractor.

The Go sources are shallowly embedded over `List Nat` byte streams:
* forward-only readers (CMZ, NSK, TSC) consume from the front of a list;
* the ZAR reverse-directory reconstructor works on the whole byte list
  with an explicit cursor (the Go code uses `Seek`);
* the external blast decompressor is a parameter
  `blast : List Nat → Option (List Nat)` giving, for a compressed byte
  run, its full natural-end-of-stream decompression (or `none` when the
  decoder cannot be constructed).
-/

namespace Dclextract

/-- `FileType` represents a type of compressed file (from `common`). -/
inductive FileType where
  | TypeCMZ
  | TypeNSK
  | TypeTSC
  | TypeZAR
  | TypeUnknown
deriving Repr, DecidableEq

/-- Magic byte signature for CMZ files: "Clay". -/
def cmzSignature : List Nat := [67, 108, 97, 121]

/-- Magic byte signature for NSK files: "NSK". -/
def nskSignature : List Nat := [78, 83, 75]

/-- Magic byte signature for TSC files. -/
def tscSignature : List Nat := [0x65, 0x5D, 0x13, 0x8C, 0x08]

/-- Magic byte signature for ZAR files: "PT&". -/
def zarSignature : List Nat := [80, 84, 38]

/-- `Signatures` holds the magic byte signatures for each file type. -/
def Signatures : FileType → List Nat
  | .TypeCMZ => cmzSignature
  | .TypeNSK => nskSignature
  | .TypeTSC => tscSignature
  | .TypeZAR => zarSignature
  | .TypeUnknown => []

/-- Errors produced by the embedded extraction code.  Go errors are
values built with `fmt.Errorf`; we keep the EOF sentinels and the
short-decompression counts as structured data and the wrapping context
strings as a `wrapped` constructor. -/
inductive Err where
  | ioEOF
  | ioUnexpectedEOF
  | magicMismatch
  | blastInit
  | seekFail
  | outOfFuel
  | wrapped (ctx : String) (e : Err)
deriving Repr, DecidableEq

/-- `ExtractedFileData` holds the data and filename for a single
extracted file (strings are modelled as their byte sequences). -/
structure ExtractedFileData where
  Filename : List Nat
  Data : List Nat
  CompressedSize : Nat
  DecompressedSize : Nat
  Version : String
deriving Repr, DecidableEq

/-- Little-endian 32-bit value of (the first four bytes of) a list. -/
def le32 (b : List Nat) : Nat :=
  b.getD 0 0 + 256 * b.getD 1 0 + 65536 * b.getD 2 0 + 16777216 * b.getD 3 0

/-- Little-endian 16-bit value of (the first two bytes of) a list. -/
def le16 (b : List Nat) : Nat :=
  b.getD 0 0 + 256 * b.getD 1 0

/-- The four little-endian bytes of a 32-bit value. -/
def le32bytes (n : Nat) : List Nat :=
  [n % 256, n / 256 % 256, n / 65536 % 256, n / 16777216 % 256]

/-- `io.ReadFull` on a forward stream: read exactly `n` bytes or fail
with `io.EOF` (zero bytes were available) / `io.ErrUnexpectedEOF`
(a partial read), reporting the number of bytes actually read. -/
def readFullE (s : List Nat) (n : Nat) : Except (Nat × Err) (List Nat × List Nat) :=
  if s.length < n then
    .error (s.length, if s.length = 0 then .ioEOF else .ioUnexpectedEOF)
  else
    .ok (s.take n, s.drop n)

/-- `ReadFileMagic` reads file magic byte header from the stream
(from `common`): `io.ReadFull` into a buffer of the magic's length,
then compare. On failure the count of bytes read is reported. -/
def ReadFileMagic (expectedMagic : List Nat) (s : List Nat) :
    Except (Nat × Err) (List Nat) :=
  match readFullE s expectedMagic.length with
  | .error (n, e) => .error (n, e)
  | .ok (buf, rest) =>
    if buf = expectedMagic then .ok rest
    else .error (expectedMagic.length, .magicMismatch)

/-- `ReadFilename` reads a filename of a specified size (from `common`);
zero length yields the empty name without touching the stream. -/
def ReadFilename (s : List Nat) (fnSize : Nat) :
    Except Err (List Nat × List Nat) :=
  if fnSize = 0 then .ok ([], s)
  else
    match readFullE s fnSize with
    | .error (_, e) => .error (.wrapped "reading filename" e)
    | .ok (fn, rest) => .ok (fn, rest)

/-- `ReadAndDecompressBlastData` (from `common`): read `compSize`
compressed bytes, build a blast reader over them, then either read to
the decoder's natural end of stream (`decompSize = 0`) or read exactly
`decompSize` bytes, failing with the short-decompression counts when
fewer are produced.  Returns the decompressed bytes and the rest of the
stream. -/
def ReadAndDecompressBlastData (blast : List Nat → Option (List Nat))
    (s : List Nat) (compSize decompSize : Nat) :
    Except Err (List Nat × List Nat) :=
  match readFullE s compSize with
  | .error (_, e) => .error (.wrapped "reading compressed data" e)
  | .ok (compressedData, rest) =>
    match blast compressedData with
    | none => .error (.wrapped "creating blast reader" .blastInit)
    | some out =>
      if decompSize = 0 then .ok (out, rest)
      else if out.length < decompSize then
        .error (.wrapped "decompressing data"
          (.wrapped (toString out.length ++ " of " ++ toString decompSize)
            .ioUnexpectedEOF))
      else .ok (out.take decompSize, rest)

/-- `readCMZMemberMetadata`: 16-byte block, `u32` compressed size @0,
`u32` decompressed size @4, `u8` filename size @12 (from `cmz`). -/
def readCMZMemberMetadata (s : List Nat) :
    Except Err (Nat × Nat × Nat × List Nat) :=
  match readFullE s 16 with
  | .error (_, e) => .error (.wrapped "reading metadata" e)
  | .ok (m, rest) =>
    .ok (le32 (m.take 4), le32 ((m.drop 4).take 4), m.getD 12 0, rest)

/-- `readNSKMemberMetadata`: 14-byte block, `u32` compressed size @0,
5 unknown bytes @4..8, `u32` decompressed size @9, `u8` filename size
@13 (from `nsk`). -/
def readNSKMemberMetadata (s : List Nat) :
    Except Err (Nat × Nat × Nat × List Nat) :=
  match readFullE s 14 with
  | .error (_, e) => .error (.wrapped "reading nsk metadata block" e)
  | .ok (m, rest) =>
    .ok (le32 (m.take 4), le32 ((m.drop 9).take 4), m.getD 13 0, rest)

/-- The member loop of `cmz.Extract`: read magic, metadata, filename,
payload, decompress, append; a zero-byte EOF after at least one member
is the clean termination. -/
def cmzLoop (blast : List Nat → Option (List Nat)) :
    Nat → List ExtractedFileData → Bool → List Nat →
    List ExtractedFileData × Option Err
  | 0, acc, _, _ => (acc, some .outOfFuel)
  | fuel + 1, acc, processedAnyFile, s =>
    match ReadFileMagic cmzSignature s with
    | .error (br, e) =>
      if e = .ioEOF ∨ e = .ioUnexpectedEOF then
        if br = 0 ∧ processedAnyFile ∧ e = .ioEOF then (acc, none)
        else if processedAnyFile then
          (acc, some (.wrapped
            "CMZ: unexpected end of archive while expecting next member header" e))
        else (acc, some (.wrapped "CMZ: failed to read member header" e))
      else (acc, some (.wrapped "CMZ: error reading member magic" e))
    | .ok s1 =>
      match readCMZMemberMetadata s1 with
      | .error e => (acc, some (.wrapped "CMZ: reading member metadata" e))
      | .ok (compSize, decompSize, fnSize, s2) =>
        match ReadFilename s2 fnSize with
        | .error e => (acc, some (.wrapped "CMZ: reading member filename" e))
        | .ok (originalFilename, s3) =>
          match ReadAndDecompressBlastData blast s3 compSize decompSize with
          | .error e => (acc, some (.wrapped "CMZ: processing data for member" e))
          | .ok (decompressedData, s4) =>
            cmzLoop blast fuel
              (acc ++ [{ Filename := originalFilename
                         Data := decompressedData
                         CompressedSize := compSize
                         DecompressedSize := decompSize
                         Version := "" }]) true s4

/-- `cmz.Extract`. -/
def cmzExtract (blast : List Nat → Option (List Nat)) (s : List Nat) :
    List ExtractedFileData × Option Err :=
  cmzLoop blast (s.length + 1) [] false s

/-- The member loop of `nsk.Extract`; identical shape to CMZ with the
NSK magic and 14-byte metadata block. -/
def nskLoop (blast : List Nat → Option (List Nat)) :
    Nat → List ExtractedFileData → Bool → List Nat →
    List ExtractedFileData × Option Err
  | 0, acc, _, _ => (acc, some .outOfFuel)
  | fuel + 1, acc, processedAnyFile, s =>
    match ReadFileMagic nskSignature s with
    | .error (br, e) =>
      if e = .ioEOF ∨ e = .ioUnexpectedEOF then
        if br = 0 ∧ processedAnyFile ∧ e = .ioEOF then (acc, none)
        else if processedAnyFile then
          (acc, some (.wrapped
            "NSK: unexpected end of archive while expecting next member header" e))
        else (acc, some (.wrapped "NSK: failed to read member header" e))
      else (acc, some (.wrapped "NSK: error reading member magic" e))
    | .ok s1 =>
      match readNSKMemberMetadata s1 with
      | .error e => (acc, some (.wrapped "NSK: reading member metadata" e))
      | .ok (compSize, decompSize, fnSize, s2) =>
        match ReadFilename s2 fnSize with
        | .error e => (acc, some (.wrapped "NSK: reading member filename for member" e))
        | .ok (originalFilename, s3) =>
          match ReadAndDecompressBlastData blast s3 compSize decompSize with
          | .error e => (acc, some (.wrapped "NSK: processing data for member" e))
          | .ok (decompressedData, s4) =>
            nskLoop blast fuel
              (acc ++ [{ Filename := originalFilename
                         Data := decompressedData
                         CompressedSize := compSize
                         DecompressedSize := decompSize
                         Version := "" }]) true s4

/-- `nsk.Extract`. -/
def nskExtract (blast : List Nat → Option (List Nat)) (s : List Nat) :
    List ExtractedFileData × Option Err :=
  nskLoop blast (s.length + 1) [] false s

/-- `readTSCMemberHeader`: 16-byte member header, `u32` compressed size
@1, `u8` filename size @15; a clean EOF is passed through so the caller
can stop the loop. -/
def readTSCMemberHeader (s : List Nat) :
    Except Err (Nat × Nat × List Nat) :=
  match readFullE s 16 with
  | .error (_, e) =>
    if e = .ioEOF then .error .ioEOF
    else .error (.wrapped "reading TSC member header block" e)
  | .ok (h, rest) => .ok (le32 ((h.drop 1).take 4), h.getD 15 0, rest)

/-- The member loop of `tsc.Extract`: every member is decompressed with
expected size 0 (read to adapter EOF), the resulting length is recorded
as `DecompressedSize`, and the archive-wide version string is stamped
on every member. -/
def tscLoop (blast : List Nat → Option (List Nat)) (versionStr : String) :
    Nat → List ExtractedFileData → List Nat →
    List ExtractedFileData × Option Err
  | 0, acc, _ => (acc, some .outOfFuel)
  | fuel + 1, acc, s =>
    match readTSCMemberHeader s with
    | .error e =>
      if e = .ioEOF then (acc, none)
      else (acc, some (.wrapped "TSC: reading member header" e))
    | .ok (compSize, fnSize, s1) =>
      match ReadFilename s1 (fnSize + 1) with
      | .error e => (acc, some (.wrapped "TSC: reading member filename for member" e))
      | .ok (originalFilename, s2) =>
        match ReadAndDecompressBlastData blast s2 compSize 0 with
        | .error e => (acc, some (.wrapped "TSC: processing data for member" e))
        | .ok (decompressedData, s3) =>
          tscLoop blast versionStr fuel
            (acc ++ [{ Filename := originalFilename
                       Data := decompressedData
                       CompressedSize := compSize
                       DecompressedSize := decompressedData.length % 4294967296
                       Version := versionStr }]) s3

/-- `tsc.Extract`: archive-wide magic, 3 version bytes (1-byte major,
little-endian `u16` minor), 1 wildcard byte, seek past 4 reserved
bytes, then the member loop. -/
def tscExtract (blast : List Nat → Option (List Nat)) (s : List Nat) :
    List ExtractedFileData × Option Err :=
  match ReadFileMagic tscSignature s with
  | .error (_, e) => ([], some (.wrapped "TSC: reading file magic" e))
  | .ok s1 =>
    match readFullE s1 3 with
    | .error (_, e) => ([], some (.wrapped "TSC: reading version info" e))
    | .ok (versionBytes, s2) =>
      let majorVersion := versionBytes.getD 0 0
      let minorVersion := le16 (versionBytes.drop 1)
      let versionStr := toString majorVersion ++ "." ++ toString minorVersion
      match readFullE s2 1 with
      | .error (_, e) => ([], some (.wrapped "TSC: reading wildcard value" e))
      | .ok (_, s3) =>
        tscLoop blast versionStr (s3.length + 1) [] (s3.drop 4)

/-! ### ZAR: cursor-based stream model and the reverse reconstructor -/

/-- The bytes `[i, i+n)` of a byte list. -/
def sliceAt (data : List Nat) (i n : Nat) : List Nat :=
  (data.drop i).take n

/-- A single `Read` of `n` bytes at absolute cursor `c` on an open
file: fails only when the cursor is at or past the end and at least one
byte was requested; otherwise it returns `min n avail` bytes (the
buffer's unfilled remainder stays zero, as Go's `make` leaves it) and
the advanced cursor. -/
def goRead (data : List Nat) (c n : Nat) :
    Except Err (List Nat × Nat) :=
  if data.length ≤ c ∧ 0 < n then .error .ioEOF
  else .ok (sliceAt data c n ++ List.replicate (n - (data.length - c)) 0,
            min (c + n) data.length)

/-- `readBack` (from `zar`): seek backwards `n` bytes, read forwards,
then return to the position before the read bytes. -/
def readBack (data : List Nat) (c n : Nat) :
    Except Err (List Nat × Nat) :=
  if c < n then .error .seekFail
  else
    match goRead data (c - n) n with
    | .error e => .error e
    | .ok (buf, c2) =>
      if c2 < n then .error .seekFail
      else .ok (buf, c2 - n)

/-- A directory entry recovered by the ZAR backward walk.  The Go
struct also records the filename offset and length-byte offset; they
are positional bookkeeping used only inside the iteration that fills
them and are not carried here. -/
structure ZarEntry where
  cSize : Nat
  fnSize : Nat
  fn : List Nat
deriving Repr, DecidableEq

/-- Outcome of `zar.Extract` (and of the facade): a normal return of
files and an optional error, a whole-process `os.Exit`, or a runtime
fault (a Go panic / exhausted model fuel — unreachable on the traces
considered here). -/
inductive ZarOutcome where
  | ret (files : List ExtractedFileData) (err : Option Err)
  | exit (code : Nat)
  | fault
deriving Repr, DecidableEq

/-- The inner byte-by-byte backward scan of `zar.Extract`: read one
byte backwards; the scan stops when `int(b) - 0x80` equals
`pos - count + 4`, yielding that value as the filename length together
with the cursor (the sentinel byte's offset). -/
def zarScan (data : List Nat) (pos : Int) :
    Nat → Int → Except Err (Int × Nat)
  | 0, _ => .error .seekFail
  | c + 1, count =>
    match readBack data (c + 1) 1 with
    | .error e => .error e
    | .ok (buf, _) =>
      let bv : Int := (buf.getD 0 0 : Int) - 0x80
      let pc : Int := pos - count + 4
      if bv = pc then .ok (bv, c)
      else zarScan data pos c (count - 1)

/-- Pass 2 of `zar.Extract`: sequentially decompress each entry's
payload from the start of the archive with expected decompressed size 0
and record the actual output length. -/
def zarPass2 (blast : List Nat → Option (List Nat)) :
    List Nat → List ZarEntry → List ExtractedFileData → ZarOutcome
  | _, [], acc => .ret acc none
  | s, e :: rest, acc =>
    match ReadAndDecompressBlastData blast s e.cSize 0 with
    | .error err =>
      .ret acc (some (.wrapped "ZAR: processing data for member" err))
    | .ok (decompressedData, s') =>
      zarPass2 blast s' rest
        (acc ++ [{ Filename := e.fn
                   Data := decompressedData
                   CompressedSize := e.cSize
                   DecompressedSize := decompressedData.length % 4294967296
                   Version := "" }])

/-- The outer entry loop of `zar.Extract` (pass 1): read the compressed
size backwards, scan backwards for the name-length sentinel, enforce
the 12-byte name cap by terminating the process, read the name, account
for the bytes, and stop once the accounted bytes reach the file size,
at which point the entries are reversed and pass 2 runs. -/
def zarLoop (blast : List Nat → Option (List Nat)) (data : List Nat) :
    Nat → Nat → Int → Int → List ZarEntry → ZarOutcome
  | 0, _, _, _, _ => .fault
  | fuel + 1, c, bytesRead, headerBytes, entries =>
    match readBack data c 4 with
    | .error e => .ret [] (some (.wrapped "ZAR: could not read compressed size" e))
    | .ok (buf, c1) =>
      let cSize := le32 buf
      let bytesRead1 := bytesRead + 4
      let pos : Int := (c1 : Int)
      match zarScan data pos c1 ((data.length : Int) - 7 - headerBytes) with
      | .error e => .ret [] (some (.wrapped "ZAR: could not read filename byte" e))
      | .ok (fnSize, c2) =>
        let fnLenOff := c2
        let fnOff := c2 + 1
        let headerBytes1 := headerBytes + fnSize + 5
        let bytesRead2 := bytesRead1 + fnSize + 1
        if fnSize > 12 then .exit 1
        else if fnSize < 0 then .fault
        else
          match goRead data fnOff fnSize.toNat with
          | .error e => .ret [] (some (.wrapped "ZAR: could not read filename" e))
          | .ok (fn, _) =>
            let bytesRead3 := bytesRead2 + (cSize : Int)
            let entries1 := entries ++ [⟨cSize, fnSize.toNat, fn⟩]
            if bytesRead3 = (data.length : Int) then
              zarPass2 blast data entries1.reverse []
            else
              zarLoop blast data fuel fnLenOff bytesRead3 headerBytes1 entries1

/-- `zar.Extract`: read the trailing 3-byte id, skip the 4 unknown
bytes, then run the backward directory walk followed by pass 2. -/
def zarExtract (blast : List Nat → Option (List Nat)) (data : List Nat) :
    ZarOutcome :=
  if data.length < 3 then
    .ret [] (some (.wrapped "ZAR: could not seek to the end of the file" .seekFail))
  else
    match goRead data (data.length - 3) 3 with
    | .error e => .ret [] (some (.wrapped "ZAR: could not read the file magic" e))
    | .ok _ =>
      if data.length < 7 then
        .ret [] (some (.wrapped "ZAR: could not seek backwards 7 bytes" .seekFail))
      else
        zarLoop blast data (data.length + 1) (data.length - 7) 7 0 []

/-! ### Format detection and the extraction facade -/

/-- Modelled from the spec: `MaxSignatureLength`, the length of the
longest registered signature, is referenced by the facade but its
defining constant in `common` is not among the provided sources. -/
def MaxSignatureLength : Nat := 5

/-- Modelled from the spec: the two-argument `DetermineFileType` with a
footer window is called by the facade but only the single-argument
header version of `common.DetermineFileType` is among the provided
sources.  Per the spec's detector contract it returns the first variant
whose magic is a prefix of the header window, falls back to
footer-pattern matching for the variant whose signature sits at the end
of the stream (ZAR's 3-byte magic closing the 7-byte trailer), and
returns Unknown when nothing matches. -/
def DetermineFileType (header footer : List Nat) : FileType :=
  if cmzSignature.isPrefixOf header then .TypeCMZ
  else if nskSignature.isPrefixOf header then .TypeNSK
  else if tscSignature.isPrefixOf header then .TypeTSC
  else if zarSignature.isPrefixOf header then .TypeZAR
  else if zarSignature.isSuffixOf footer then .TypeZAR
  else .TypeUnknown

/-- The header window read by the facade: the first
`MaxSignatureLength` bytes that exist. -/
def headerWindow (data : List Nat) : List Nat :=
  data.take MaxSignatureLength

/-- The footer window read by the facade: the last
`MaxSignatureLength` bytes when the file is long enough, else nil. -/
def footerWindow (data : List Nat) : List Nat :=
  if MaxSignatureLength ≤ data.length then
    data.drop (data.length - MaxSignatureLength)
  else []

/-- The extraction facade `extract`: detect the variant from the header
and footer windows, rewind, dispatch to the matching reader, and return
its files and error unchanged (partial results are passed through). -/
def extract (blast : List Nat → Option (List Nat)) (data : List Nat) :
    ZarOutcome :=
  match DetermineFileType (headerWindow data) (footerWindow data) with
  | .TypeCMZ => let r := cmzExtract blast data; .ret r.1 r.2
  | .TypeNSK => let r := nskExtract blast data; .ret r.1 r.2
  | .TypeTSC => let r := tscExtract blast data; .ret r.1 r.2
  | .TypeZAR => zarExtract blast data
  | .TypeUnknown => .ret [] (some (.wrapped "unknown file type" .magicMismatch))

/-! ### Well-formed archive builders (for stating whole-archive facts) -/

/-- A CMZ/NSK member description: name, the decompressed size declared
in the metadata, and the stored compressed payload. -/
structure SeqSpecMember where
  name : List Nat
  declaredDecomp : Nat
  payload : List Nat
deriving Repr, DecidableEq

/-- On-disk bytes of one CMZ member: magic, 16-byte metadata
(compressed size @0, declared decompressed size @4, name length @12,
unknown bytes zeroed), name, payload. -/
def cmzMemberBytes (m : SeqSpecMember) : List Nat :=
  cmzSignature ++ le32bytes m.payload.length ++ le32bytes m.declaredDecomp
    ++ [0, 0, 0, 0, m.name.length, 0, 0, 0] ++ m.name ++ m.payload

/-- A CMZ archive: members back to back. -/
def mkCmz (ms : List SeqSpecMember) : List Nat :=
  (ms.map cmzMemberBytes).flatten

/-- On-disk bytes of one NSK member: magic, 14-byte metadata
(compressed size @0, 5 unknown bytes @4, declared decompressed size @9,
name length @13), name, payload. -/
def nskMemberBytes (m : SeqSpecMember) : List Nat :=
  nskSignature ++ le32bytes m.payload.length ++ [0, 0, 0, 0, 0]
    ++ le32bytes m.declaredDecomp ++ [m.name.length] ++ m.name ++ m.payload

/-- An NSK archive: members back to back. -/
def mkNsk (ms : List SeqSpecMember) : List Nat :=
  (ms.map nskMemberBytes).flatten

/-- Well-formedness of a CMZ/NSK member description: the name length
fits the `u8` field and the sizes fit `u32`. -/
def SeqWF (m : SeqSpecMember) : Prop :=
  m.name.length ≤ 255 ∧ m.declaredDecomp < 4294967296 ∧
    m.payload.length < 4294967296

/-- A TSC member description: the stored name bytes (declared length
plus one trailing terminator byte) and the compressed payload. -/
structure TscSpecMember where
  nameBytes : List Nat
  payload : List Nat
deriving Repr, DecidableEq

/-- On-disk bytes of one TSC member: 16-byte member header (arbitrary
byte @0 zeroed, compressed size @1, unknown bytes zeroed, declared name
length @15 = stored name bytes minus the terminator), the name bytes,
the payload. -/
def tscMemberBytes (m : TscSpecMember) : List Nat :=
  [0] ++ le32bytes m.payload.length ++ List.replicate 10 0
    ++ [m.nameBytes.length - 1] ++ m.nameBytes ++ m.payload

/-- A TSC archive: archive-wide header (magic, major version byte, two
little-endian minor version bytes, wildcard byte, 4 reserved bytes),
then members back to back. -/
def mkTsc (major mi0 mi1 wildcard r0 r1 r2 r3 : Nat)
    (ms : List TscSpecMember) : List Nat :=
  tscSignature ++ [major, mi0, mi1, wildcard, r0, r1, r2, r3]
    ++ (ms.map tscMemberBytes).flatten

/-- Well-formedness of a TSC member description: the stored name has at
least the terminator byte, its declared length fits the `u8` field, and
the payload size fits `u32`. -/
def TscWF (m : TscSpecMember) : Prop :=
  1 ≤ m.nameBytes.length ∧ m.nameBytes.length ≤ 256 ∧
    m.payload.length < 4294967296

/-- A ZAR entry description: name and compressed payload. -/
structure ZarSpecEntry where
  name : List Nat
  payload : List Nat
deriving Repr, DecidableEq

/-- On-disk bytes of one ZAR directory entry, in archive order: the
name-length byte biased by `0x80`, the name, the little-endian
compressed size. -/
def zarDirEntryBytes (e : ZarSpecEntry) : List Nat :=
  [128 + e.name.length] ++ e.name ++ le32bytes e.payload.length

/-- A ZAR archive: all payloads, then the directory in archive order,
then the 7-byte trailer (4 unknown bytes and the magic). -/
def mkZar (es : List ZarSpecEntry) (t4 : List Nat) : List Nat :=
  (es.map (·.payload)).flatten ++ (es.map zarDirEntryBytes).flatten
    ++ t4 ++ zarSignature

/-- Well-formedness of a ZAR entry description: the name respects the
12-byte physical cap, its bytes stay below the `0x80` sentinel bias
(plain filename characters), and the payload size fits `u32`. -/
def ZarWF (e : ZarSpecEntry) : Prop :=
  e.name.length ≤ 12 ∧ (∀ b ∈ e.name, b < 128) ∧
    e.payload.length < 4294967296

/-- The directory entry the backward walk should recover for a
description. -/
def zarEntryOf (e : ZarSpecEntry) : ZarEntry :=
  ⟨e.payload.length, e.name.length, e.name⟩

/-- The file pass 2 should recover for a ZAR description, given the
decompressor. -/
def zarFileOf (blast : List Nat → Option (List Nat)) (e : ZarSpecEntry) :
    ExtractedFileData :=
  { Filename := e.name
    Data := (blast e.payload).getD []
    CompressedSize := e.payload.length
    DecompressedSize := ((blast e.payload).getD []).length % 4294967296
    Version := "" }

/-- The file the CMZ/NSK readers should recover for a description,
given the decompressor: the declared decompressed size is stored
verbatim, and the data is the full natural-end output when it is 0 and
the first `declaredDecomp` bytes otherwise. -/
def seqFileOf (blast : List Nat → Option (List Nat)) (m : SeqSpecMember) :
    ExtractedFileData :=
  { Filename := m.name
    Data := if m.declaredDecomp = 0 then (blast m.payload).getD []
            else ((blast m.payload).getD []).take m.declaredDecomp
    CompressedSize := m.payload.length
    DecompressedSize := m.declaredDecomp
    Version := "" }

/-- The file the TSC reader should recover for a description, given the
decompressor and the archive-wide version string. -/
def tscFileOf (blast : List Nat → Option (List Nat)) (versionStr : String)
    (m : TscSpecMember) : ExtractedFileData :=
  { Filename := m.nameBytes
    Data := (blast m.payload).getD []
    CompressedSize := m.payload.length
    DecompressedSize := ((blast m.payload).getD []).length % 4294967296
    Version := versionStr }

/-- The concrete 25-byte ZAR stream whose single directory entry
decodes a name length of 13 (sentinel byte `0x8D`, thirteen plain name
bytes, a zero compressed size, the 7-byte trailer). -/
def zarOversizedNameData : List Nat :=
  [0x8D] ++ List.replicate 13 65 ++ [0, 0, 0, 0] ++ [0, 0, 0, 0] ++ zarSignature

/-- A decompressor stub that replays its input. -/
def idBlast : List Nat → Option (List Nat) := fun bs => some bs

/-- The concatenated payload region of a ZAR description. -/
def payBytes (es : List ZarSpecEntry) : List Nat :=
  (es.map (·.payload)).flatten

/-- The concatenated directory region of a ZAR description. -/
def dirBytes (es : List ZarSpecEntry) : List Nat :=
  (es.map zarDirEntryBytes).flatten

/-- The value of `bytesRead` in the ZAR backward walk once the entries
of `suf` (a suffix of the archive) have been processed: the 7 trailer
bytes plus, per entry, 4 size bytes, the sentinel byte, the name and
the payload. -/
def brNat (suf : List ZarSpecEntry) : Nat :=
  7 + (suf.map (fun e => 5 + e.name.length + e.payload.length)).sum

/-- The value of `headerBytes` in the ZAR backward walk once the
entries of `suf` have been processed: per entry, name length plus 5. -/
def hbNat (suf : List ZarSpecEntry) : Nat :=
  (suf.map (fun e => e.name.length + 5)).sum

/-! ### Helper lemmas -/

theorem le32_le32bytes {n : Nat} (h : n < 4294967296) :
    le32 (le32bytes n) = n := by
  simp only [le32, le32bytes, List.getD]
  simp only [List.get?_cons_zero, List.get?_cons_succ, Option.getD_some]
  omega

theorem le32bytes_length (n : Nat) : (le32bytes n).length = 4 := rfl

theorem readFullE_append {n : Nat} (a b : List Nat) (h : n = a.length) :
    readFullE (a ++ b) n = .ok (a, b) := by
  subst h
  simp [readFullE, List.take_left, List.drop_left]

theorem ReadFileMagic_append (m s : List Nat) :
    ReadFileMagic m (m ++ s) = .ok s := by
  simp [ReadFileMagic, readFullE_append m s rfl]

theorem ReadFileMagic_nil {m : List Nat} (h : 0 < m.length) :
    ReadFileMagic m [] = .error (0, .ioEOF) := by
  simp [ReadFileMagic, readFullE, h]

theorem ReadFileMagic_short {m s : List Nat} (h1 : 0 < s.length)
    (h2 : s.length < m.length) :
    ReadFileMagic m s = .error (s.length, .ioUnexpectedEOF) := by
  have h0 : s.length ≠ 0 := by omega
  simp [ReadFileMagic, readFullE, h2, h0]

theorem ReadFileMagic_mismatch {m s : List Nat} (h2 : m.length ≤ s.length)
    (h3 : s.take m.length ≠ m) :
    ReadFileMagic m s = .error (m.length, .magicMismatch) := by
  simp [ReadFileMagic, readFullE, Nat.not_lt.mpr h2, h3]

/-! ### Claim theorems -/

/-- C4: for every call to the decompression adapter with compressed
bytes and an expected decompressed size: if the expected size is
positive, the adapter returns exactly that many bytes or fails with a
short-decompression error carrying the number of bytes actually
produced; if the expected size is zero, the adapter decompresses until
the underlying algorithm's natural end-of-stream and returns whatever
length resulted. -/
theorem c4_adapter_contract (blast : List Nat → Option (List Nat))
    (compData rest out : List Nat) (decompSize : Nat)
    (hb : blast compData = some out) :
    (decompSize = 0 →
      ReadAndDecompressBlastData blast (compData ++ rest) compData.length 0 =
        .ok (out, rest)) ∧
    (0 < decompSize → out.length < decompSize →
      ReadAndDecompressBlastData blast (compData ++ rest) compData.length
          decompSize =
        .error (.wrapped "decompressing data"
          (.wrapped (toString out.length ++ " of " ++ toString decompSize)
            .ioUnexpectedEOF))) ∧
    (0 < decompSize → decompSize ≤ out.length →
      ReadAndDecompressBlastData blast (compData ++ rest) compData.length
          decompSize = .ok (out.take decompSize, rest) ∧
        (out.take decompSize).length = decompSize) := by
  refine ⟨?_, ?_, ?_⟩
  · intro h0
    simp [ReadAndDecompressBlastData, readFullE_append compData rest rfl, hb, h0]
  · intro hpos hshort
    simp only [ReadAndDecompressBlastData, readFullE_append compData rest rfl, hb]
    rw [if_neg (by omega), if_pos hshort]
  · intro hpos hlong
    constructor
    · simp only [ReadAndDecompressBlastData, readFullE_append compData rest rfl, hb]
      rw [if_neg (by omega), if_neg (by omega)]
    · simp [List.length_take]
      omega

/-- Witness for C4: an adapter stub that yields 10 bytes when 20 are
expected produces the short-decompression error carrying (10, 20). -/
theorem c4_adapter_contract_witness :
    ReadAndDecompressBlastData (fun _ => some (List.replicate 10 0))
        (List.replicate 10 1) 10 20 =
      .error (.wrapped "decompressing data"
        (.wrapped ("10 of 20") .ioUnexpectedEOF)) := by
  have h := (c4_adapter_contract (fun _ => some (List.replicate 10 0))
    (List.replicate 10 1) [] (List.replicate 10 0) 20 rfl).2.1
    (by norm_num) (by simp)
  simpa using h

/-- C8: the NSK member metadata block is parsed as a 14-byte block with
the little-endian `u32` compressed size at offset 0, five reserved
bytes at offsets 4–8 that are skipped but counted (they do not affect
the result, yet exactly 14 bytes are consumed), the little-endian `u32`
decompressed size at offset 9, and the `u8` name length at offset
13. -/
theorem c8_nsk_metadata_layout
    (b0 b1 b2 b3 b4 b5 b6 b7 b8 b9 b10 b11 b12 b13 : Nat) (rest : List Nat) :
    readNSKMemberMetadata
        ([b0, b1, b2, b3, b4, b5, b6, b7, b8, b9, b10, b11, b12, b13] ++ rest) =
      .ok (b0 + 256 * b1 + 65536 * b2 + 16777216 * b3,
           b9 + 256 * b10 + 65536 * b11 + 16777216 * b12,
           b13, rest) := by
  have h := readFullE_append
    [b0, b1, b2, b3, b4, b5, b6, b7, b8, b9, b10, b11, b12, b13] rest
    (n := 14) rfl
  simp only [List.cons_append, List.nil_append] at h
  simp [readNSKMemberMetadata, h, le32, List.getD]

theorem cmzLoop_append (blast : List Nat → Option (List Nat)) :
    ∀ (fuel : Nat) (acc : List ExtractedFileData) (p : Bool) (s : List Nat),
      cmzLoop blast fuel acc p s =
        (acc ++ (cmzLoop blast fuel [] p s).1, (cmzLoop blast fuel [] p s).2)
  | 0, acc, p, s => by simp [cmzLoop]
  | n + 1, acc, p, s => by
    simp only [cmzLoop]
    cases hmg : ReadFileMagic cmzSignature s with
    | error pe =>
      obtain ⟨br, e⟩ := pe
      by_cases hc1 : e = Err.ioEOF ∨ e = Err.ioUnexpectedEOF
      · simp only [if_pos hc1]
        by_cases hc2 : br = 0 ∧ p = true ∧ e = Err.ioEOF
        · simp only [if_pos hc2]; simp
        · simp only [if_neg hc2]
          cases p <;> simp
      · simp only [if_neg hc1]; simp
    | ok s1 =>
      cases hmd : readCMZMemberMetadata s1 with
      | error e => simp [hmd]
      | ok md =>
        obtain ⟨compSize, decompSize, fnSize, s2⟩ := md
        simp only [hmd]
        cases hfn : ReadFilename s2 fnSize with
        | error e => simp [hfn]
        | ok fns =>
          obtain ⟨fn, s3⟩ := fns
          simp only [hfn]
          cases hdt : ReadAndDecompressBlastData blast s3 compSize decompSize with
          | error e => simp [hdt]
          | ok ds =>
            obtain ⟨d, s4⟩ := ds
            simp only [hdt]
            rw [cmzLoop_append blast n (acc ++ [_]) true s4,
                cmzLoop_append blast n ([] ++ [_]) true s4]
            simp

theorem nskLoop_append (blast : List Nat → Option (List Nat)) :
    ∀ (fuel : Nat) (acc : List ExtractedFileData) (p : Bool) (s : List Nat),
      nskLoop blast fuel acc p s =
        (acc ++ (nskLoop blast fuel [] p s).1, (nskLoop blast fuel [] p s).2)
  | 0, acc, p, s => by simp [nskLoop]
  | n + 1, acc, p, s => by
    simp only [nskLoop]
    cases hmg : ReadFileMagic nskSignature s with
    | error pe =>
      obtain ⟨br, e⟩ := pe
      by_cases hc1 : e = Err.ioEOF ∨ e = Err.ioUnexpectedEOF
      · simp only [if_pos hc1]
        by_cases hc2 : br = 0 ∧ p = true ∧ e = Err.ioEOF
        · simp only [if_pos hc2]; simp
        · simp only [if_neg hc2]
          cases p <;> simp
      · simp only [if_neg hc1]; simp
    | ok s1 =>
      cases hmd : readNSKMemberMetadata s1 with
      | error e => simp [hmd]
      | ok md =>
        obtain ⟨compSize, decompSize, fnSize, s2⟩ := md
        simp only [hmd]
        cases hfn : ReadFilename s2 fnSize with
        | error e => simp [hfn]
        | ok fns =>
          obtain ⟨fn, s3⟩ := fns
          simp only [hfn]
          cases hdt : ReadAndDecompressBlastData blast s3 compSize decompSize with
          | error e => simp [hdt]
          | ok ds =>
            obtain ⟨d, s4⟩ := ds
            simp only [hdt]
            rw [nskLoop_append blast n (acc ++ [_]) true s4,
                nskLoop_append blast n ([] ++ [_]) true s4]
            simp

/-- C5: in the CMZ and NSK member loops, an exact EOF with zero bytes
consumed while reading the next member's magic, after at least one
member has already been parsed, terminates the loop normally with all
accumulated members and no error; any other magic-read failure — a
zero-byte EOF before any member was parsed, a partial magic read, or a
magic mismatch — makes the reader return an error. -/
theorem c5_magic_read_termination (blast : List Nat → Option (List Nat))
    (fuel : Nat) (acc : List ExtractedFileData) (processed : Bool)
    (s : List Nat) :
    (cmzLoop blast (fuel + 1) acc true [] = (acc, none)) ∧
    (cmzLoop blast (fuel + 1) acc false [] =
      (acc, some (.wrapped "CMZ: failed to read member header" .ioEOF))) ∧
    (0 < s.length → s.length < 4 →
      ((cmzLoop blast (fuel + 1) acc processed s).2).isSome = true) ∧
    (4 ≤ s.length → s.take 4 ≠ cmzSignature →
      ((cmzLoop blast (fuel + 1) acc processed s).2).isSome = true) ∧
    (nskLoop blast (fuel + 1) acc true [] = (acc, none)) ∧
    (nskLoop blast (fuel + 1) acc false [] =
      (acc, some (.wrapped "NSK: failed to read member header" .ioEOF))) ∧
    (0 < s.length → s.length < 3 →
      ((nskLoop blast (fuel + 1) acc processed s).2).isSome = true) ∧
    (3 ≤ s.length → s.take 3 ≠ nskSignature →
      ((nskLoop blast (fuel + 1) acc processed s).2).isSome = true) := by
  refine ⟨?_, ?_, ?_, ?_, ?_, ?_, ?_, ?_⟩
  · simp [cmzLoop, ReadFileMagic_nil (m := cmzSignature) (by decide)]
  · simp [cmzLoop, ReadFileMagic_nil (m := cmzSignature) (by decide)]
  · intro h1 h2
    rw [cmzLoop, ReadFileMagic_short h1 (by simpa [cmzSignature] using h2)]
    have h0 : s.length ≠ 0 := by omega
    cases processed <;> simp [h0]
  · intro h1 h2
    rw [cmzLoop,
      ReadFileMagic_mismatch (by simpa [cmzSignature] using h1)
        (by simpa [cmzSignature] using h2)]
    cases processed <;> simp
  · simp [nskLoop, ReadFileMagic_nil (m := nskSignature) (by decide)]
  · simp [nskLoop, ReadFileMagic_nil (m := nskSignature) (by decide)]
  · intro h1 h2
    rw [nskLoop, ReadFileMagic_short h1 (by simpa [nskSignature] using h2)]
    have h0 : s.length ≠ 0 := by omega
    cases processed <;> simp [h0]
  · intro h1 h2
    rw [nskLoop,
      ReadFileMagic_mismatch (by simpa [nskSignature] using h1)
        (by simpa [nskSignature] using h2)]
    cases processed <;> simp

/-- Witness for C5: on an empty remaining stream after one member was
parsed the CMZ loop stops cleanly, while a one-byte remaining stream
(a partial magic read) produces an error. -/
theorem c5_magic_read_termination_witness :
    cmzLoop idBlast 1 [] true [] = ([], none) ∧
    ((cmzLoop idBlast 1 [] true [67]).2).isSome = true := by
  refine ⟨(c5_magic_read_termination idBlast 0 [] true [67]).1, ?_⟩
  exact (c5_magic_read_termination idBlast 0 [] true [67]).2.2.1
    (by decide) (by decide)

/-- C1: the extraction facade honours the partial-result contract.
The CMZ/NSK member loops return everything accumulated before a failure
on every exit path (the accumulated prefix is never discarded), the
facade passes a dispatched reader's members and error through
unchanged, and an Unknown detection is a terminal unsupported-format
error with no members. -/
theorem c1_facade_partial_results (blast : List Nat → Option (List Nat))
    (data s : List Nat) (fuel : Nat) (acc : List ExtractedFileData)
    (p : Bool) :
    (cmzLoop blast fuel acc p s =
      (acc ++ (cmzLoop blast fuel [] p s).1, (cmzLoop blast fuel [] p s).2)) ∧
    (nskLoop blast fuel acc p s =
      (acc ++ (nskLoop blast fuel [] p s).1, (nskLoop blast fuel [] p s).2)) ∧
    (DetermineFileType (headerWindow data) (footerWindow data) = .TypeUnknown →
      extract blast data =
        .ret [] (some (.wrapped "unknown file type" .magicMismatch))) ∧
    (DetermineFileType (headerWindow data) (footerWindow data) = .TypeCMZ →
      extract blast data =
        .ret (cmzExtract blast data).1 (cmzExtract blast data).2) ∧
    (DetermineFileType (headerWindow data) (footerWindow data) = .TypeNSK →
      extract blast data =
        .ret (nskExtract blast data).1 (nskExtract blast data).2) := by
  refine ⟨cmzLoop_append blast fuel acc p s, nskLoop_append blast fuel acc p s,
    ?_, ?_, ?_⟩ <;> intro hdet <;> simp [extract, hdet]

/-- Witness for C1: the empty stream detects as Unknown and the facade
returns no members together with the unsupported-format error. -/
theorem c1_facade_partial_results_witness :
    extract idBlast [] =
      .ret [] (some (.wrapped "unknown file type" .magicMismatch)) :=
  (c1_facade_partial_results idBlast [] [] 0 [] false).2.2.1 (by decide)

theorem ReadFilename_append (name rest : List Nat) :
    ReadFilename (name ++ rest) name.length = .ok (name, rest) := by
  cases hn : name with
  | nil => simp [ReadFilename]
  | cons a t =>
    rw [ReadFilename, if_neg (by simp), readFullE_append (a :: t) rest rfl]

theorem RADBD_append_ok (blast : List Nat → Option (List Nat))
    (payload rest out : List Nat) (decompSize : Nat)
    (hb : blast payload = some out)
    (h : decompSize = 0 ∨ decompSize ≤ out.length) :
    ReadAndDecompressBlastData blast (payload ++ rest) payload.length
        decompSize =
      .ok (if decompSize = 0 then out else out.take decompSize, rest) := by
  simp only [ReadAndDecompressBlastData, readFullE_append payload rest rfl, hb]
  rcases h with h0 | hle
  · simp [h0]
  · by_cases h0 : decompSize = 0
    · simp [h0]
    · rw [if_neg h0, if_neg (by omega), if_neg h0]

theorem readCMZMemberMetadata_mk (cS dD L : Nat) (rest : List Nat)
    (hcS : cS < 4294967296) (hdD : dD < 4294967296) :
    readCMZMemberMetadata
        (le32bytes cS ++ le32bytes dD ++ [0, 0, 0, 0, L, 0, 0, 0] ++ rest) =
      .ok (cS, dD, L, rest) := by
  have h := readFullE_append
    (le32bytes cS ++ le32bytes dD ++ [0, 0, 0, 0, L, 0, 0, 0]) rest
    (n := 16) (by simp [le32bytes])
  simp only [le32bytes, List.cons_append, List.nil_append,
    List.append_assoc] at h
  simp [readCMZMemberMetadata, h, le32bytes, le32, List.getD]
  omega

theorem readNSKMemberMetadata_mk (cS dD L : Nat) (rest : List Nat)
    (hcS : cS < 4294967296) (hdD : dD < 4294967296) :
    readNSKMemberMetadata
        (le32bytes cS ++ [0, 0, 0, 0, 0] ++ le32bytes dD ++ [L] ++ rest) =
      .ok (cS, dD, L, rest) := by
  have h := readFullE_append
    (le32bytes cS ++ [0, 0, 0, 0, 0] ++ le32bytes dD ++ [L]) rest
    (n := 14) (by simp [le32bytes])
  simp only [le32bytes, List.cons_append, List.nil_append,
    List.append_assoc] at h
  simp [readNSKMemberMetadata, h, le32bytes, le32, List.getD]
  omega

theorem readTSCMemberHeader_mk (b cS L : Nat) (rest : List Nat)
    (hcS : cS < 4294967296) :
    readTSCMemberHeader
        ([b] ++ le32bytes cS ++ List.replicate 10 0 ++ [L] ++ rest) =
      .ok (cS, L, rest) := by
  have h := readFullE_append
    ([b] ++ le32bytes cS ++ List.replicate 10 0 ++ [L]) rest
    (n := 16) (by simp [le32bytes])
  simp only [le32bytes, List.replicate, List.cons_append, List.nil_append,
    List.append_assoc] at h
  simp [readTSCMemberHeader, h, le32bytes, le32, List.getD, List.replicate]
  omega

theorem cmzLoop_cons (blast : List Nat → Option (List Nat)) (fuel : Nat)
    (acc : List ExtractedFileData) (p : Bool) (m : SeqSpecMember)
    (rest : List Nat) (hwf : SeqWF m) (out : List Nat)
    (hb1 : blast m.payload = some out)
    (hb2 : m.declaredDecomp = 0 ∨ m.declaredDecomp ≤ out.length) :
    cmzLoop blast (fuel + 1) acc p (cmzMemberBytes m ++ rest) =
      cmzLoop blast fuel (acc ++ [seqFileOf blast m]) true rest := by
  obtain ⟨hL, hdD, hcS⟩ := hwf
  have hshape : cmzMemberBytes m ++ rest =
      cmzSignature ++ (le32bytes m.payload.length ++ le32bytes m.declaredDecomp
        ++ [0, 0, 0, 0, m.name.length, 0, 0, 0]
        ++ (m.name ++ (m.payload ++ rest))) := by
    simp [cmzMemberBytes]
  rw [cmzLoop, hshape]
  simp only [ReadFileMagic_append,
    readCMZMemberMetadata_mk _ _ _ _ hcS hdD, ReadFilename_append,
    RADBD_append_ok blast m.payload _ out m.declaredDecomp hb1 hb2]
  simp [seqFileOf, hb1]

theorem nskLoop_cons (blast : List Nat → Option (List Nat)) (fuel : Nat)
    (acc : List ExtractedFileData) (p : Bool) (m : SeqSpecMember)
    (rest : List Nat) (hwf : SeqWF m) (out : List Nat)
    (hb1 : blast m.payload = some out)
    (hb2 : m.declaredDecomp = 0 ∨ m.declaredDecomp ≤ out.length) :
    nskLoop blast (fuel + 1) acc p (nskMemberBytes m ++ rest) =
      nskLoop blast fuel (acc ++ [seqFileOf blast m]) true rest := by
  obtain ⟨hL, hdD, hcS⟩ := hwf
  have hshape : nskMemberBytes m ++ rest =
      nskSignature ++ (le32bytes m.payload.length ++ [0, 0, 0, 0, 0]
        ++ le32bytes m.declaredDecomp ++ [m.name.length]
        ++ (m.name ++ (m.payload ++ rest))) := by
    simp [nskMemberBytes]
  rw [nskLoop, hshape]
  simp only [ReadFileMagic_append,
    readNSKMemberMetadata_mk _ _ _ _ hcS hdD, ReadFilename_append,
    RADBD_append_ok blast m.payload _ out m.declaredDecomp hb1 hb2]
  simp [seqFileOf, hb1]

theorem tscLoop_cons (blast : List Nat → Option (List Nat))
    (versionStr : String) (fuel : Nat) (acc : List ExtractedFileData)
    (m : TscSpecMember) (rest : List Nat) (hwf : TscWF m) (out : List Nat)
    (hb1 : blast m.payload = some out) :
    tscLoop blast versionStr (fuel + 1) acc (tscMemberBytes m ++ rest) =
      tscLoop blast versionStr fuel (acc ++ [tscFileOf blast versionStr m])
        rest := by
  obtain ⟨hL, hLmax, hcS⟩ := hwf
  have hshape : tscMemberBytes m ++ rest =
      [0] ++ le32bytes m.payload.length ++ List.replicate 10 0
        ++ [m.nameBytes.length - 1]
        ++ (m.nameBytes ++ (m.payload ++ rest)) := by
    simp [tscMemberBytes]
  have hname : m.nameBytes.length - 1 + 1 = m.nameBytes.length := by omega
  rw [tscLoop, hshape]
  simp only [readTSCMemberHeader_mk _ _ _ _ hcS, hname,
    ReadFilename_append,
    RADBD_append_ok blast m.payload _ out 0 hb1 (Or.inl rfl)]
  simp [tscFileOf, hb1]

theorem cmzLoop_mkCmz (blast : List Nat → Option (List Nat)) :
    ∀ (ms : List SeqSpecMember) (fuel : Nat) (acc : List ExtractedFileData),
      (∀ m ∈ ms, SeqWF m) →
      (∀ m ∈ ms, ∃ out, blast m.payload = some out ∧
        (m.declaredDecomp = 0 ∨ m.declaredDecomp ≤ out.length)) →
      ms.length < fuel →
      cmzLoop blast fuel acc true (mkCmz ms) =
        (acc ++ ms.map (seqFileOf blast), none)
  | [], fuel, acc, _, _, hf => by
    obtain ⟨f, rfl⟩ : ∃ f, fuel = f + 1 := ⟨fuel - 1, by omega⟩
    simp [mkCmz, cmzLoop, ReadFileMagic_nil (m := cmzSignature) (by decide)]
  | m :: ms, fuel, acc, hwf, hb, hf => by
    obtain ⟨f, rfl⟩ : ∃ f, fuel = f + 1 := ⟨fuel - 1, by omega⟩
    obtain ⟨out, hb1, hb2⟩ := hb m (by simp)
    rw [show mkCmz (m :: ms) = cmzMemberBytes m ++ mkCmz ms from by
      simp [mkCmz]]
    rw [cmzLoop_cons blast f acc true m (mkCmz ms) (hwf m (by simp))
      out hb1 hb2]
    rw [cmzLoop_mkCmz blast ms f (acc ++ [seqFileOf blast m])
      (fun x hx => hwf x (by simp [hx])) (fun x hx => hb x (by simp [hx]))
      (by simp at hf; omega)]
    simp

theorem nskLoop_mkNsk (blast : List Nat → Option (List Nat)) :
    ∀ (ms : List SeqSpecMember) (fuel : Nat) (acc : List ExtractedFileData),
      (∀ m ∈ ms, SeqWF m) →
      (∀ m ∈ ms, ∃ out, blast m.payload = some out ∧
        (m.declaredDecomp = 0 ∨ m.declaredDecomp ≤ out.length)) →
      ms.length < fuel →
      nskLoop blast fuel acc true (mkNsk ms) =
        (acc ++ ms.map (seqFileOf blast), none)
  | [], fuel, acc, _, _, hf => by
    obtain ⟨f, rfl⟩ : ∃ f, fuel = f + 1 := ⟨fuel - 1, by omega⟩
    simp [mkNsk, nskLoop, ReadFileMagic_nil (m := nskSignature) (by decide)]
  | m :: ms, fuel, acc, hwf, hb, hf => by
    obtain ⟨f, rfl⟩ : ∃ f, fuel = f + 1 := ⟨fuel - 1, by omega⟩
    obtain ⟨out, hb1, hb2⟩ := hb m (by simp)
    rw [show mkNsk (m :: ms) = nskMemberBytes m ++ mkNsk ms from by
      simp [mkNsk]]
    rw [nskLoop_cons blast f acc true m (mkNsk ms) (hwf m (by simp))
      out hb1 hb2]
    rw [nskLoop_mkNsk blast ms f (acc ++ [seqFileOf blast m])
      (fun x hx => hwf x (by simp [hx])) (fun x hx => hb x (by simp [hx]))
      (by simp at hf; omega)]
    simp

theorem tscLoop_mkTsc (blast : List Nat → Option (List Nat))
    (versionStr : String) :
    ∀ (ms : List TscSpecMember) (fuel : Nat) (acc : List ExtractedFileData),
      (∀ m ∈ ms, TscWF m) →
      (∀ m ∈ ms, (blast m.payload).isSome) →
      ms.length < fuel →
      tscLoop blast versionStr fuel acc ((ms.map tscMemberBytes).flatten) =
        (acc ++ ms.map (tscFileOf blast versionStr), none)
  | [], fuel, acc, _, _, hf => by
    obtain ⟨f, rfl⟩ : ∃ f, fuel = f + 1 := ⟨fuel - 1, by omega⟩
    simp [tscLoop, readTSCMemberHeader, readFullE]
  | m :: ms, fuel, acc, hwf, hb, hf => by
    obtain ⟨f, rfl⟩ : ∃ f, fuel = f + 1 := ⟨fuel - 1, by omega⟩
    obtain ⟨out, hb1⟩ := Option.isSome_iff_exists.mp (hb m (by simp))
    rw [show ((m :: ms).map tscMemberBytes).flatten =
        tscMemberBytes m ++ (ms.map tscMemberBytes).flatten from by simp]
    rw [tscLoop_cons blast versionStr f acc m _ (hwf m (by simp)) out hb1]
    rw [tscLoop_mkTsc blast versionStr ms f
      (acc ++ [tscFileOf blast versionStr m])
      (fun x hx => hwf x (by simp [hx])) (fun x hx => hb x (by simp [hx]))
      (by simp at hf; omega)]
    simp

theorem cmzMemberBytes_length (m : SeqSpecMember) :
    (cmzMemberBytes m).length = 20 + m.name.length + m.payload.length := by
  simp [cmzMemberBytes, le32bytes, cmzSignature]
  omega

theorem nskMemberBytes_length (m : SeqSpecMember) :
    (nskMemberBytes m).length = 17 + m.name.length + m.payload.length := by
  simp [nskMemberBytes, le32bytes, nskSignature]
  omega

theorem tscMemberBytes_length (m : TscSpecMember) :
    (tscMemberBytes m).length = 16 + m.nameBytes.length + m.payload.length := by
  simp [tscMemberBytes, le32bytes]
  omega

theorem mkCmz_length (ms : List SeqSpecMember) :
    ms.length ≤ (mkCmz ms).length := by
  induction ms with
  | nil => simp [mkCmz]
  | cons m t ih =>
    have h1 : mkCmz (m :: t) = cmzMemberBytes m ++ mkCmz t := by simp [mkCmz]
    have h2 := cmzMemberBytes_length m
    simp [h1, h2]
    omega

theorem mkNsk_length (ms : List SeqSpecMember) :
    ms.length ≤ (mkNsk ms).length := by
  induction ms with
  | nil => simp [mkNsk]
  | cons m t ih =>
    have h1 : mkNsk (m :: t) = nskMemberBytes m ++ mkNsk t := by simp [mkNsk]
    have h2 := nskMemberBytes_length m
    simp [h1, h2]
    omega

theorem tscMembers_length (ms : List TscSpecMember) :
    ms.length ≤ ((ms.map tscMemberBytes).flatten).length := by
  induction ms with
  | nil => simp
  | cons m t ih =>
    have h1 : ((m :: t).map tscMemberBytes).flatten =
        tscMemberBytes m ++ (t.map tscMemberBytes).flatten := by simp
    rw [h1, List.length_append, tscMemberBytes_length, List.length_cons]
    omega

theorem cmzExtract_mkCmz (blast : List Nat → Option (List Nat))
    (m : SeqSpecMember) (ms : List SeqSpecMember)
    (hwf : ∀ x ∈ m :: ms, SeqWF x)
    (hb : ∀ x ∈ m :: ms, ∃ out, blast x.payload = some out ∧
      (x.declaredDecomp = 0 ∨ x.declaredDecomp ≤ out.length)) :
    cmzExtract blast (mkCmz (m :: ms)) =
      ((m :: ms).map (seqFileOf blast), none) := by
  obtain ⟨out, hb1, hb2⟩ := hb m (by simp)
  rw [cmzExtract,
    show mkCmz (m :: ms) = cmzMemberBytes m ++ mkCmz ms from by simp [mkCmz]]
  rw [cmzLoop_cons blast ((cmzMemberBytes m ++ mkCmz ms).length) [] false m
    (mkCmz ms) (hwf m (by simp)) out hb1 hb2]
  rw [cmzLoop_mkCmz blast ms _ _
    (fun x hx => hwf x (by simp [hx])) (fun x hx => hb x (by simp [hx]))
    (by
      have h1 := mkCmz_length ms
      have h2 := cmzMemberBytes_length m
      simp [h2]
      omega)]
  simp

theorem nskExtract_mkNsk (blast : List Nat → Option (List Nat))
    (m : SeqSpecMember) (ms : List SeqSpecMember)
    (hwf : ∀ x ∈ m :: ms, SeqWF x)
    (hb : ∀ x ∈ m :: ms, ∃ out, blast x.payload = some out ∧
      (x.declaredDecomp = 0 ∨ x.declaredDecomp ≤ out.length)) :
    nskExtract blast (mkNsk (m :: ms)) =
      ((m :: ms).map (seqFileOf blast), none) := by
  obtain ⟨out, hb1, hb2⟩ := hb m (by simp)
  rw [nskExtract,
    show mkNsk (m :: ms) = nskMemberBytes m ++ mkNsk ms from by simp [mkNsk]]
  rw [nskLoop_cons blast ((nskMemberBytes m ++ mkNsk ms).length) [] false m
    (mkNsk ms) (hwf m (by simp)) out hb1 hb2]
  rw [nskLoop_mkNsk blast ms _ _
    (fun x hx => hwf x (by simp [hx])) (fun x hx => hb x (by simp [hx]))
    (by
      have h1 := mkNsk_length ms
      have h2 := nskMemberBytes_length m
      simp [h2]
      omega)]
  simp

theorem tscExtract_mkTsc (blast : List Nat → Option (List Nat))
    (maj mi0 mi1 wc r0 r1 r2 r3 : Nat) (ms : List TscSpecMember)
    (hwf : ∀ m ∈ ms, TscWF m) (hb : ∀ m ∈ ms, (blast m.payload).isSome) :
    tscExtract blast (mkTsc maj mi0 mi1 wc r0 r1 r2 r3 ms) =
      (ms.map (tscFileOf blast
        (toString maj ++ "." ++ toString (mi0 + 256 * mi1))), none) := by
  rw [tscExtract,
    show mkTsc maj mi0 mi1 wc r0 r1 r2 r3 ms =
      tscSignature ++ ([maj, mi0, mi1] ++ ([wc] ++ ([r0, r1, r2, r3]
        ++ (ms.map tscMemberBytes).flatten))) from by simp [mkTsc]]
  have h3 : ∀ b : List Nat,
      readFullE ([maj, mi0, mi1] ++ b) 3 = .ok ([maj, mi0, mi1], b) :=
    fun b => readFullE_append [maj, mi0, mi1] b rfl
  have h1 : ∀ b : List Nat, readFullE ([wc] ++ b) 1 = .ok ([wc], b) :=
    fun b => readFullE_append [wc] b rfl
  have h4 : ([r0, r1, r2, r3] ++ (ms.map tscMemberBytes).flatten).drop 4 =
      (ms.map tscMemberBytes).flatten := by simp
  simp only [ReadFileMagic_append, h3, h1, h4, List.getD,
    List.get?_cons_zero, Option.getD_some, le16, List.drop_succ_cons,
    List.drop_zero, List.get?_cons_succ]
  rw [tscLoop_mkTsc blast _ ms _ [] hwf hb
    (by
      have h5 := tscMembers_length ms
      rw [List.length_append]
      simp only [List.length_cons, List.length_nil]
      omega)]
  simp

/-- C6: when no registered magic is a prefix of the header window,
detection falls back to footer matching: a footer window ending in the
ZAR magic selects ZAR, and Unknown is returned exactly when neither the
header window has a registered prefix nor the footer window ends with
the ZAR magic. -/
theorem c6_footer_fallback_detection (header footer : List Nat)
    (hc : cmzSignature.isPrefixOf header = false)
    (hn : nskSignature.isPrefixOf header = false)
    (ht : tscSignature.isPrefixOf header = false)
    (hz : zarSignature.isPrefixOf header = false) :
    (zarSignature.isSuffixOf footer = true →
      DetermineFileType header footer = .TypeZAR) ∧
    (DetermineFileType header footer = .TypeUnknown ↔
      zarSignature.isSuffixOf footer = false) := by
  constructor
  · intro hs
    simp [DetermineFileType, hc, hn, ht, hz, hs]
  · simp only [DetermineFileType, hc, hn, ht, hz]
    cases hs : zarSignature.isSuffixOf footer <;> simp [hs]

/-- Witness for C6: an all-zero header with a footer window ending in
"PT&" detects as ZAR via the footer fallback. -/
theorem c6_footer_fallback_detection_witness :
    DetermineFileType [0, 0, 0, 0, 0] [0, 0, 80, 84, 38] = .TypeZAR :=
  (c6_footer_fallback_detection [0, 0, 0, 0, 0] [0, 0, 80, 84, 38]
    (by decide) (by decide) (by decide) (by decide)).1 (by decide)

/-- C7: the TSC reader parses the archive-wide header exactly once
before the member loop and, on a well-formed archive, recovers exactly
the members in order, each stamped with the version string parsed from
the header's version bytes (major "." little-endian minor) and each
with its decompressed size recorded as the adapter's actual output
length (payloads are decompressed in expected-size-0 mode, so the data
is the decoder's full natural-end output). -/
theorem c7_tsc_archive_header (blast : List Nat → Option (List Nat))
    (maj mi0 mi1 wc r0 r1 r2 r3 : Nat) (ms : List TscSpecMember)
    (hwf : ∀ m ∈ ms, TscWF m) (hb : ∀ m ∈ ms, (blast m.payload).isSome) :
    (tscExtract blast (mkTsc maj mi0 mi1 wc r0 r1 r2 r3 ms) =
      (ms.map (tscFileOf blast
        (toString maj ++ "." ++ toString (mi0 + 256 * mi1))), none)) ∧
    (∀ f ∈ (tscExtract blast (mkTsc maj mi0 mi1 wc r0 r1 r2 r3 ms)).1,
      f.Version = toString maj ++ "." ++ toString (mi0 + 256 * mi1) ∧
      f.DecompressedSize = f.Data.length % 4294967296 ∧
      ∃ m ∈ ms, f.Data = (blast m.payload).getD []) := by
  have hmain := tscExtract_mkTsc blast maj mi0 mi1 wc r0 r1 r2 r3 ms hwf hb
  refine ⟨hmain, ?_⟩
  rw [hmain]
  intro f hf
  simp only [List.mem_map] at hf
  obtain ⟨m, hm, rfl⟩ := hf
  exact ⟨rfl, rfl, m, hm, rfl⟩

/-- Witness for C7: a one-member archive with version bytes (2, 1, 0)
yields a member stamped "2.1" whose decompressed size equals its data
length. -/
theorem c7_tsc_archive_header_witness :
    tscExtract idBlast
        (mkTsc 2 1 0 9 0 0 0 0 [{ nameBytes := [70, 79, 0], payload := [7, 8, 9] }]) =
      ([{ Filename := [70, 79, 0], Data := [7, 8, 9], CompressedSize := 3,
          DecompressedSize := 3, Version := "2.1" }], none) := by
  have h := (c7_tsc_archive_header idBlast 2 1 0 9 0 0 0 0
    [{ nameBytes := [70, 79, 0], payload := [7, 8, 9] }]
    (by intro m hm; simp at hm; subst hm; constructor <;> simp [TscWF])
    (by intro m hm; simp [idBlast])).1
  rw [h]
  simp [tscFileOf, idBlast]
  decide

/-- C9: for CMZ and NSK, the returned `DecompressedSize` always equals
the value declared in the member's metadata, even when that value is 0:
declared 0 switches decompression to read-to-natural-end mode, so the
returned data can be non-empty while `DecompressedSize` stays 0 (shown
by the concrete final conjunct, where a declared size of 0 coexists
with three bytes of data). -/
theorem c9_decompressed_size_is_declared (blast : List Nat → Option (List Nat))
    (m : SeqSpecMember) (ms : List SeqSpecMember)
    (hwf : ∀ x ∈ m :: ms, SeqWF x)
    (hb : ∀ x ∈ m :: ms, ∃ out, blast x.payload = some out ∧
      (x.declaredDecomp = 0 ∨ x.declaredDecomp ≤ out.length)) :
    ((cmzExtract blast (mkCmz (m :: ms))).1.map (·.DecompressedSize) =
      (m :: ms).map (·.declaredDecomp)) ∧
    ((nskExtract blast (mkNsk (m :: ms))).1.map (·.DecompressedSize) =
      (m :: ms).map (·.declaredDecomp)) ∧
    (cmzExtract (fun _ => some [1, 2, 3])
        (mkCmz [{ name := [], declaredDecomp := 0, payload := [9] }]) =
      ([{ Filename := [], Data := [1, 2, 3], CompressedSize := 1,
          DecompressedSize := 0, Version := "" }], none)) := by
  refine ⟨?_, ?_, ?_⟩
  · rw [cmzExtract_mkCmz blast m ms hwf hb]
    simp [seqFileOf]
  · rw [nskExtract_mkNsk blast m ms hwf hb]
    simp [seqFileOf]
  · rw [cmzExtract_mkCmz (fun _ => some [1, 2, 3])
      { name := [], declaredDecomp := 0, payload := [9] } []
      (by intro x hx; simp at hx; subst hx; constructor <;> simp [SeqWF])
      (by intro x hx; exact ⟨[1, 2, 3], rfl, Or.inl (by simp at hx; subst hx; rfl)⟩)]
    simp [seqFileOf]

/-- Witness for C9: a single CMZ member declaring decompressed size 0
comes back with `DecompressedSize` 0 (while its data is non-empty). -/
theorem c9_decompressed_size_is_declared_witness :
    (cmzExtract (fun _ => some [1, 2, 3])
        (mkCmz [{ name := [], declaredDecomp := 0, payload := [9] }])).1.map
      (·.DecompressedSize) = [0] := by
  have h := (c9_decompressed_size_is_declared (fun _ => some [1, 2, 3])
    { name := [], declaredDecomp := 0, payload := [9] } []
    (by intro x hx; simp at hx; subst hx; constructor <;> simp [SeqWF])
    (by intro x hx; exact ⟨[1, 2, 3], rfl,
      Or.inl (by simp at hx; subst hx; rfl)⟩)).1
  rw [h]
  simp

/-- C10: for every TSC member whose header declares name length L, the
returned filename is the full stored name — the declared length plus
the trailing terminator byte, which is included rather than stripped —
so its character count is exactly L + 1. -/
theorem c10_tsc_filename_terminator (blast : List Nat → Option (List Nat))
    (maj mi0 mi1 wc r0 r1 r2 r3 : Nat) (ms : List TscSpecMember)
    (hwf : ∀ m ∈ ms, TscWF m) (hb : ∀ m ∈ ms, (blast m.payload).isSome) :
    ((tscExtract blast (mkTsc maj mi0 mi1 wc r0 r1 r2 r3 ms)).1.map
        (·.Filename) = ms.map (·.nameBytes)) ∧
    ((tscExtract blast (mkTsc maj mi0 mi1 wc r0 r1 r2 r3 ms)).1.map
        (fun f => f.Filename.length) =
      ms.map (fun m => (m.nameBytes.length - 1) + 1)) := by
  have hmain := tscExtract_mkTsc blast maj mi0 mi1 wc r0 r1 r2 r3 ms hwf hb
  rw [hmain]
  constructor
  · simp [tscFileOf]
  · simp only [List.map_map, Prod.fst]
    refine List.map_congr_left ?_
    intro m hm
    have h1 := (hwf m hm).1
    simp [tscFileOf]
    omega

/-- Witness for C10: a member with declared name length 1 comes back
with a 2-character filename including the terminator byte. -/
theorem c10_tsc_filename_terminator_witness :
    (tscExtract idBlast
        (mkTsc 1 0 0 0 0 0 0 0 [{ nameBytes := [65, 0], payload := [5] }])).1.map
      (fun f => f.Filename.length) = [2] := by
  have h := (c10_tsc_filename_terminator idBlast 1 0 0 0 0 0 0 0
    [{ nameBytes := [65, 0], payload := [5] }]
    (by intro m hm; simp at hm; subst hm; constructor <;> simp [TscWF])
    (by intro m hm; simp [idBlast])).2
  rw [h]
  simp

theorem goRead_in_range {data : List Nat} {c n : Nat}
    (h : c + n ≤ data.length) :
    goRead data c n = .ok (sliceAt data c n, c + n) := by
  have h1 : ¬ (data.length ≤ c ∧ 0 < n) := by omega
  simp only [goRead, if_neg h1]
  have h2 : n - (data.length - c) = 0 := by omega
  have h3 : min (c + n) data.length = c + n := by omega
  simp [h2, h3]

theorem readBack_in_range {data : List Nat} {c n : Nat} (h1 : n ≤ c)
    (h2 : c ≤ data.length) :
    readBack data c n = .ok (sliceAt data (c - n) n, c - n) := by
  have h3 : (c - n) + n ≤ data.length := by omega
  simp only [readBack, if_neg (by omega : ¬ c < n), goRead_in_range h3]
  rw [if_neg (by omega : ¬ (c - n) + n < n)]
  simp

theorem sliceAt_exact (a b c : List Nat) :
    sliceAt (a ++ b ++ c) a.length b.length = b := by
  rw [sliceAt, List.append_assoc, List.drop_left, List.take_left]

/-- C2 as stated is false on the code: on the 25-byte stream whose
single directory entry decodes a name length of 13, `zar.Extract` does
not return a `CorruptDirectory` (or any) error to the caller — it
terminates the whole process via `os.Exit(1)`. -/
theorem c2_name_cap_counterexample :
    zarExtract idBlast zarOversizedNameData = .exit 1 ∧
    ¬ ∃ (files : List ExtractedFileData) (e : Err),
        zarExtract idBlast zarOversizedNameData = .ret files (some e) := by
  have h : zarExtract idBlast zarOversizedNameData = .exit 1 := by decide
  refine ⟨h, ?_⟩
  rintro ⟨files, e, heq⟩
  rw [h] at heq
  cases heq

/-- C2 (amended): during variant-D (ZAR) directory reconstruction,
whenever a decoded name length exceeds the physical cap of 12, the
extractor terminates the entire process with exit status 1 instead of
returning an error to the caller; the abort happens during the
backward directory walk, before any payload is read or any file is
produced. -/
theorem c2_name_cap_amended (blast : List Nat → Option (List Nat))
    (data : List Nat) (fuel c : Nat) (bytesRead headerBytes : Int)
    (entries : List ZarEntry) (buf : List Nat) (c1 : Nat)
    (fnSize : Int) (c2 : Nat)
    (hrb : readBack data c 4 = .ok (buf, c1))
    (hscan : zarScan data (c1 : Int) c1
      ((data.length : Int) - 7 - headerBytes) = .ok (fnSize, c2))
    (hbig : fnSize > 12) :
    zarLoop blast data (fuel + 1) c bytesRead headerBytes entries =
      .exit 1 := by
  rw [zarLoop]
  simp only [hrb, hscan]
  rw [if_pos hbig]

/-- Witness for C2 (amended): on the oversized-name stream, the
backward walk reaches a decoded name length of 13 and the loop
terminates the process with exit status 1. -/
theorem c2_name_cap_amended_witness :
    zarLoop idBlast zarOversizedNameData 25 18 7 0 [] = .exit 1 :=
  c2_name_cap_amended idBlast zarOversizedNameData 24 18 7 0 []
    [0, 0, 0, 0] 14 13 0 rfl rfl (by decide)

theorem sliceAt_name_byte {data : List Nat} {S L x : Nat} {name : List Nat}
    (hbytes : sliceAt data S (L + 1) = x :: name) (hlen : name.length = L)
    {j : Nat} (hj : j < L) :
    sliceAt data (S + 1 + j) 1 = [name.getD j 0] := by
  rw [sliceAt] at hbytes
  have e1 : sliceAt data (S + 1 + j) 1 = ((data.drop S).drop (1 + j)).take 1 := by
    rw [sliceAt, List.drop_drop, show S + (1 + j) = S + 1 + j from by omega]
  have e2 : ((data.drop S).take (L + 1)).drop (1 + j) =
      ((data.drop S).drop (1 + j)).take (L - j) := by
    rw [List.drop_take, show L + 1 - (1 + j) = L - j from by omega]
  have e3 : ((data.drop S).take (L + 1)).drop (1 + j) = name.drop j := by
    rw [hbytes, show 1 + j = j + 1 from by omega, List.drop_succ_cons]
  have e4 : (name.drop j).take 1 = [name.getD j 0] := by
    rw [List.getD_eq_getElem name 0 (by omega : j < name.length),
      List.drop_eq_getElem_cons (by omega : j < name.length)]
    rfl
  calc sliceAt data (S + 1 + j) 1
      = ((data.drop S).drop (1 + j)).take 1 := e1
    _ = (((data.drop S).drop (1 + j)).take (L - j)).take 1 := by
        rw [List.take_take, show min 1 (L - j) = 1 from by omega]
    _ = (((data.drop S).take (L + 1)).drop (1 + j)).take 1 := by rw [e2]
    _ = (name.drop j).take 1 := by rw [e3]
    _ = [name.getD j 0] := e4

theorem zarScan_names (data : List Nat) (pos : Int) (S L : Nat)
    (name : List Nat) (hlen : name.length = L)
    (hbytes : sliceAt data S (L + 1) = (128 + L) :: name)
    (hS : S + L + 1 ≤ data.length)
    (hall : ∀ b ∈ name, b < 128) :
    ∀ (j : Nat), j ≤ L → ∀ (count : Int),
      pos - count + 4 = (L : Int) - (j : Int) →
      zarScan data pos (S + 1 + j) count = .ok ((L : Int), S) := by
  intro j
  induction j with
  | zero =>
    intro _ count hcount
    have hrb := readBack_in_range (show 1 ≤ S + 1 by omega)
      (show S + 1 ≤ data.length by omega)
    rw [show S + 1 - 1 = S from by omega] at hrb
    have hslice : sliceAt data S 1 = [128 + L] := by
      have ht : sliceAt data S 1 = (sliceAt data S (L + 1)).take 1 := by
        rw [sliceAt, sliceAt, List.take_take,
          show min 1 (L + 1) = 1 from by omega]
      rw [ht, hbytes]
      rfl
    rw [show S + 1 + 0 = S + 1 from by omega, zarScan]
    simp only [hrb, hslice, List.getD, List.get?_cons_zero, Option.getD_some]
    rw [hcount]
    rw [if_pos (by push_cast; ring)]
    have hc : ((128 + L : Nat) : Int) - 128 = (L : Int) := by push_cast; ring
    rw [hc]
  | succ j ih =>
    intro hj count hcount
    have hrb := readBack_in_range (show 1 ≤ S + 1 + j + 1 by omega)
      (show S + 1 + j + 1 ≤ data.length by omega)
    rw [show S + 1 + j + 1 - 1 = S + 1 + j from by omega] at hrb
    have hslice := sliceAt_name_byte hbytes hlen (show j < L by omega)
    have hmem : name.getD j 0 ∈ name := by
      rw [List.getD_eq_getElem name 0 (by omega : j < name.length)]
      exact List.getElem_mem _
    have hlt : name.getD j 0 < 128 := hall _ hmem
    rw [show S + 1 + (j + 1) = (S + 1 + j) + 1 from by omega, zarScan]
    simp only [hrb, hslice, List.getD, List.get?_cons_zero, Option.getD_some]
    rw [if_neg (by
      rw [hcount]
      have h0 : (name.get? j).getD 0 < 128 := hlt
      have h1 : (((name.get? j).getD 0 : Nat) : Int) < 128 := by
        exact_mod_cast h0
      omega)]
    exact ih (by omega) (count - 1) (by push_cast at hcount ⊢; omega)

theorem zarLoop_step (blast : List Nat → Option (List Nat)) (data : List Nat)
    (fuel c : Nat) (bytesRead headerBytes : Int) (entries : List ZarEntry)
    (buf : List Nat) (c1 : Nat) (fnSize : Int) (c2 : Nat) (fn : List Nat)
    (k : Nat)
    (hrb : readBack data c 4 = .ok (buf, c1))
    (hscan : zarScan data (c1 : Int) c1
      ((data.length : Int) - 7 - headerBytes) = .ok (fnSize, c2))
    (h12 : ¬ fnSize > 12) (h0 : ¬ fnSize < 0)
    (hgr : goRead data (c2 + 1) fnSize.toNat = .ok (fn, k)) :
    zarLoop blast data (fuel + 1) c bytesRead headerBytes entries =
      (if bytesRead + 4 + fnSize + 1 + (le32 buf : Int) = (data.length : Int)
       then zarPass2 blast data
         (entries ++ [{ cSize := le32 buf, fnSize := fnSize.toNat,
                        fn := fn : ZarEntry }]).reverse []
       else zarLoop blast data fuel c2
         (bytesRead + 4 + fnSize + 1 + (le32 buf : Int))
         (headerBytes + fnSize + 5)
         (entries ++ [{ cSize := le32 buf, fnSize := fnSize.toNat,
                        fn := fn : ZarEntry }])) := by
  rw [zarLoop]
  simp only [hrb, hscan]
  rw [if_neg h12, if_neg h0]
  simp only [hgr]

theorem zarDirEntryBytes_length (e : ZarSpecEntry) :
    (zarDirEntryBytes e).length = e.name.length + 5 := by
  simp [zarDirEntryBytes, le32bytes]

theorem payBytes_append (a b : List ZarSpecEntry) :
    payBytes (a ++ b) = payBytes a ++ payBytes b := by
  simp [payBytes]

theorem dirBytes_append (a b : List ZarSpecEntry) :
    dirBytes (a ++ b) = dirBytes a ++ dirBytes b := by
  simp [dirBytes]

theorem dirBytes_cons (e : ZarSpecEntry) (es : List ZarSpecEntry) :
    dirBytes (e :: es) = zarDirEntryBytes e ++ dirBytes es := by
  simp [dirBytes]

theorem dirBytes_length (es : List ZarSpecEntry) :
    (dirBytes es).length = hbNat es := by
  induction es with
  | nil => simp [dirBytes, hbNat]
  | cons e t ih =>
    rw [dirBytes_cons, List.length_append, zarDirEntryBytes_length, ih]
    simp [hbNat]

theorem payBytes_length (es : List ZarSpecEntry) :
    (payBytes es).length = (es.map (fun e => e.payload.length)).sum := by
  induction es with
  | nil => simp [payBytes]
  | cons e t ih =>
    have h : payBytes (e :: t) = e.payload ++ payBytes t := by simp [payBytes]
    rw [h, List.length_append, ih]
    simp

theorem zarSum_split (es : List ZarSpecEntry) :
    (es.map (fun e => 5 + e.name.length + e.payload.length)).sum =
      (es.map (fun e => e.name.length + 5)).sum +
        (es.map (fun e => e.payload.length)).sum := by
  induction es with
  | nil => simp
  | cons e t ih => simp [ih]; omega

theorem mkZar_length_br (es : List ZarSpecEntry) (t4 : List Nat)
    (ht4 : t4.length = 4) :
    (mkZar es t4).length = brNat es := by
  have h : mkZar es t4 = payBytes es ++ dirBytes es ++ t4 ++ zarSignature := rfl
  rw [h]
  simp only [List.length_append, dirBytes_length, payBytes_length, ht4,
    zarSignature, List.length_cons, List.length_nil, brNat, zarSum_split,
    hbNat]
  omega

theorem brNat_cons (e : ZarSpecEntry) (suf : List ZarSpecEntry) :
    brNat (e :: suf) = brNat suf + (5 + e.name.length + e.payload.length) := by
  simp [brNat]
  omega

theorem hbNat_cons (e : ZarSpecEntry) (suf : List ZarSpecEntry) :
    hbNat (e :: suf) = hbNat suf + (e.name.length + 5) := by
  simp [hbNat]
  omega

theorem hbNat_append (a b : List ZarSpecEntry) :
    hbNat (a ++ b) = hbNat a + hbNat b := by
  simp [hbNat]

theorem brNat_decomp (pre r : List ZarSpecEntry) :
    brNat (pre ++ r) = brNat r +
      (pre.map (fun x => 5 + x.name.length + x.payload.length)).sum := by
  simp [brNat]
  omega

theorem zarSum_pos {pre : List ZarSpecEntry} (h : pre ≠ []) :
    0 < (pre.map (fun x => 5 + x.name.length + x.payload.length)).sum := by
  cases pre with
  | nil => exact absurd rfl h
  | cons a t => simp

theorem zarLoop_mkZar (blast : List Nat → Option (List Nat))
    (es : List ZarSpecEntry) (t4 : List Nat) (ht4 : t4.length = 4)
    (hwf : ∀ e ∈ es, ZarWF e) :
    ∀ (fuel : Nat) (pre suf : List ZarSpecEntry),
      es = pre ++ suf → pre ≠ [] → pre.length ≤ fuel →
      zarLoop blast (mkZar es t4) fuel
        ((payBytes es).length + (dirBytes pre).length)
        ((brNat suf : Nat) : Int) ((hbNat suf : Nat) : Int)
        ((suf.map zarEntryOf).reverse) =
      zarPass2 blast (mkZar es t4) (es.map zarEntryOf) [] := by
  intro fuel
  induction fuel with
  | zero =>
    intro pre suf h1 h2 h3
    cases pre with
    | nil => exact absurd rfl h2
    | cons a t => simp at h3
  | succ f ih =>
    intro pre suf hes hne hlen
    obtain ⟨pre', e, rfl⟩ : ∃ pre' e, pre = pre' ++ [e] := by
      rcases List.eq_nil_or_concat pre with h | ⟨l, b, h⟩
      · exact absurd h hne
      · exact ⟨l, b, by simpa [List.concat_eq_append] using h⟩
    subst hes
    obtain ⟨hL, hall, hcS⟩ := hwf e (by simp)
    set ES := (pre' ++ [e]) ++ suf with hES
    set data := mkZar ES t4 with hdataeq
    set P := (payBytes ES).length with hPdef
    set Dp := (dirBytes pre').length with hDpdef
    set L := e.name.length with hLdef
    set cS := e.payload.length with hcSdef
    -- directory-length decomposition of the cursor
    have hcur : (dirBytes (pre' ++ [e])).length = Dp + (L + 5) := by
      rw [dirBytes_append, List.length_append]
      have h1 : (dirBytes [e]).length = L + 5 := by
        rw [show dirBytes [e] = zarDirEntryBytes e from by simp [dirBytes],
          zarDirEntryBytes_length]
      rw [h1]
    have hdirES : (dirBytes ES).length = Dp + (L + 5) + (dirBytes suf).length := by
      rw [hES, dirBytes_append, List.length_append, hcur]
    have hdl : data.length = P + (dirBytes ES).length + 7 := by
      rw [hdataeq, show mkZar ES t4 =
        payBytes ES ++ dirBytes ES ++ t4 ++ zarSignature from rfl]
      simp [ht4, zarSignature, hPdef]
      omega
    have hdsuf : (dirBytes suf).length = hbNat suf := dirBytes_length suf
    have hdl2 : data.length = P + Dp + L + 5 + hbNat suf + 7 := by
      rw [hdl, hdirES, hdsuf]; omega
    -- the three slice decompositions of the archive
    have hsplit1 : data = (payBytes ES ++ dirBytes pre')
        ++ ((128 + L) :: e.name)
        ++ (le32bytes cS ++ (dirBytes suf ++ (t4 ++ zarSignature))) := by
      rw [hdataeq, show mkZar ES t4 =
        payBytes ES ++ dirBytes ES ++ t4 ++ zarSignature from rfl, hES]
      rw [dirBytes_append, dirBytes_append, dirBytes_cons]
      simp [dirBytes, zarDirEntryBytes, List.append_assoc]
    have hsplit2 : data = (payBytes ES ++ dirBytes pre' ++ ((128 + L) :: e.name))
        ++ le32bytes cS ++ (dirBytes suf ++ (t4 ++ zarSignature)) := by
      rw [hsplit1]; simp [List.append_assoc]
    have hsplit3 : data = (payBytes ES ++ dirBytes pre' ++ [128 + L])
        ++ e.name ++ (le32bytes cS ++ (dirBytes suf ++ (t4 ++ zarSignature))) := by
      rw [hsplit1]; simp [List.append_assoc]
    have hbytes : sliceAt data (P + Dp) (L + 1) = (128 + L) :: e.name := by
      have h := sliceAt_exact (payBytes ES ++ dirBytes pre')
        ((128 + L) :: e.name)
        (le32bytes cS ++ (dirBytes suf ++ (t4 ++ zarSignature)))
      rw [← hsplit1] at h
      rw [show (payBytes ES ++ dirBytes pre').length = P + Dp from by
        simp [hPdef, hDpdef]] at h
      rw [show ((128 + L) :: e.name).length = L + 1 from by
        simp [hLdef]] at h
      exact h
    have hsliceC : sliceAt data (P + Dp + L + 1) 4 = le32bytes cS := by
      have h := sliceAt_exact (payBytes ES ++ dirBytes pre' ++ ((128 + L) :: e.name))
        (le32bytes cS) (dirBytes suf ++ (t4 ++ zarSignature))
      rw [← hsplit2] at h
      rw [show (payBytes ES ++ dirBytes pre' ++ ((128 + L) :: e.name)).length =
        P + Dp + L + 1 from by simp [hPdef, hDpdef, hLdef]; omega] at h
      rw [show (le32bytes cS).length = 4 from le32bytes_length cS] at h
      exact h
    have hsliceN : sliceAt data (P + Dp + 1) L = e.name := by
      have h := sliceAt_exact (payBytes ES ++ dirBytes pre' ++ [128 + L])
        e.name (le32bytes cS ++ (dirBytes suf ++ (t4 ++ zarSignature)))
      rw [← hsplit3] at h
      rw [show (payBytes ES ++ dirBytes pre' ++ [128 + L]).length =
        P + Dp + 1 from by simp [hPdef, hDpdef]; omega] at h
      rw [show e.name.length = L from rfl] at h
      exact h
    -- the cursor of this iteration
    have hcgoal : P + (dirBytes (pre' ++ [e])).length = P + Dp + L + 5 := by
      rw [hcur]; omega
    rw [hcgoal]
    -- step hypotheses at the literal cursor value
    have hrb : readBack data (P + Dp + L + 5) 4 =
        .ok (le32bytes cS, P + Dp + L + 5 - 4) := by
      have h := readBack_in_range
        (show 4 ≤ P + Dp + L + 5 from by omega)
        (show P + Dp + L + 5 ≤ data.length from by omega)
      rw [show P + Dp + L + 5 - 4 = P + Dp + L + 1 from by omega] at h ⊢
      rw [hsliceC] at h
      exact h
    have hscan : zarScan data ((P + Dp + L + 5 - 4 : Nat) : Int)
        (P + Dp + L + 5 - 4)
        ((data.length : Int) - 7 - ((hbNat suf : Nat) : Int)) =
        .ok ((L : Int), P + Dp) := by
      have h := zarScan_names data ((P + Dp + L + 5 - 4 : Nat) : Int)
        (P + Dp) L e.name rfl hbytes (by omega) hall L (le_refl L)
        ((data.length : Int) - 7 - ((hbNat suf : Nat) : Int))
        (by rw [hdl2]; push_cast; ring)
      rw [show P + Dp + 1 + L = P + Dp + L + 5 - 4 from by omega] at h
      exact h
    have h12 : ¬ ((L : Int) > 12) := by
      have : (L : Int) ≤ 12 := by exact_mod_cast hL
      omega
    have h0 : ¬ ((L : Int) < 0) := by omega
    have hgr : goRead data (P + Dp + 1) ((L : Int)).toNat =
        .ok (e.name, P + Dp + 1 + L) := by
      rw [Int.toNat_natCast]
      have h := goRead_in_range
        (show P + Dp + 1 + L ≤ data.length from by omega)
      rw [hsliceN] at h
      exact h
    rw [zarLoop_step blast data f (P + Dp + L + 5)
      ((brNat suf : Nat) : Int) ((hbNat suf : Nat) : Int)
      ((suf.map zarEntryOf).reverse) (le32bytes cS) (P + Dp + L + 5 - 4)
      ((L : Int)) (P + Dp) e.name (P + Dp + 1 + L) hrb hscan h12 h0 hgr]
    simp only [le32_le32bytes hcS, Int.toNat_natCast]
    have hent : (suf.map zarEntryOf).reverse
        ++ [{ cSize := cS, fnSize := L, fn := e.name : ZarEntry }] =
        (((e :: suf).map zarEntryOf)).reverse := by
      simp [zarEntryOf, hcSdef, hLdef]
    rw [hent]
    have hbr : ((brNat suf : Nat) : Int) + 4 + (L : Int) + 1 + (cS : Int) =
        ((brNat (e :: suf) : Nat) : Int) := by
      rw [brNat_cons]; push_cast [hLdef, hcSdef]; ring
    rw [hbr]
    have hhb : ((hbNat suf : Nat) : Int) + (L : Int) + 5 =
        ((hbNat (e :: suf) : Nat) : Int) := by
      rw [hbNat_cons]; push_cast [hLdef]; ring
    rw [hhb]
    have hbrES : data.length = brNat ES := by
      rw [hdataeq]; exact mkZar_length_br ES t4 ht4
    have hbrdec : brNat ES = brNat (e :: suf) +
        (pre'.map (fun x => 5 + x.name.length + x.payload.length)).sum := by
      rw [hES, show (pre' ++ [e]) ++ suf = pre' ++ (e :: suf) from by simp]
      exact brNat_decomp pre' (e :: suf)
    by_cases hp : pre' = []
    · subst hp
      rw [if_pos (by
        rw [hbrES, hbrdec]
        simp)]
      rw [List.reverse_reverse]
      rw [show ES = e :: suf from by rw [hES]; simp]
    · rw [if_neg (by
        rw [hbrES, hbrdec]
        have hpos := zarSum_pos hp
        intro hcon
        have : ((brNat (e :: suf) : Nat) : Int) =
            ((brNat (e :: suf) +
              (pre'.map (fun x => 5 + x.name.length + x.payload.length)).sum : Nat) : Int) := hcon
        push_cast at this
        omega)]
      exact ih pre' (e :: suf) (by rw [hES]; simp) hp
        (by simp at hlen; omega)

theorem zarPass2_spec (blast : List Nat → Option (List Nat)) :
    ∀ (es : List ZarSpecEntry) (tail : List Nat)
      (acc : List ExtractedFileData),
      (∀ e ∈ es, (blast e.payload).isSome) →
      zarPass2 blast (payBytes es ++ tail) (es.map zarEntryOf) acc =
        .ret (acc ++ es.map (zarFileOf blast)) none
  | [], tail, acc, _ => by simp [zarPass2]
  | e :: es, tail, acc, hb => by
    obtain ⟨out, hout⟩ := Option.isSome_iff_exists.mp (hb e (by simp))
    rw [show (e :: es).map zarEntryOf = zarEntryOf e :: es.map zarEntryOf
      from by simp]
    rw [zarPass2]
    rw [show payBytes (e :: es) ++ tail = e.payload ++ (payBytes es ++ tail)
      from by simp [payBytes]]
    rw [show (zarEntryOf e).cSize = e.payload.length from rfl]
    rw [RADBD_append_ok blast e.payload _ out 0 hout (Or.inl rfl)]
    rw [if_pos rfl]
    have hrec := zarPass2_spec blast es tail
      (acc ++ [{ Filename := (zarEntryOf e).fn, Data := out,
                 CompressedSize := e.payload.length,
                 DecompressedSize := out.length % 4294967296,
                 Version := "" }])
      (fun x hx => hb x (by simp [hx]))
    simpa [zarFileOf, zarEntryOf, hout] using hrec

theorem brNat_ge (es : List ZarSpecEntry) : es.length ≤ brNat es := by
  induction es with
  | nil => simp [brNat]
  | cons e t ih =>
    rw [brNat_cons, List.length_cons]
    omega

theorem zarExtract_mkZar (blast : List Nat → Option (List Nat))
    (es : List ZarSpecEntry) (t4 : List Nat) (ht4 : t4.length = 4)
    (hne : es ≠ []) (hwf : ∀ e ∈ es, ZarWF e)
    (hb : ∀ e ∈ es, (blast e.payload).isSome) :
    zarExtract blast (mkZar es t4) = .ret (es.map (zarFileOf blast)) none := by
  have hlen : (mkZar es t4).length = brNat es := mkZar_length_br es t4 ht4
  have hbig : 7 ≤ (mkZar es t4).length := by
    rw [hlen]
    simp [brNat]
  have hdl : (mkZar es t4).length =
      (payBytes es).length + (dirBytes es).length + 7 := by
    rw [show mkZar es t4 = payBytes es ++ dirBytes es ++ t4 ++ zarSignature
      from rfl]
    simp [ht4, zarSignature]
    omega
  rw [zarExtract]
  rw [if_neg (by omega)]
  rw [goRead_in_range
    (show (mkZar es t4).length - 3 + 3 ≤ (mkZar es t4).length from by omega)]
  rw [if_neg (by omega)]
  rw [show (7 : Int) = ((brNat ([] : List ZarSpecEntry) : Nat) : Int)
    from by simp [brNat]]
  rw [show (0 : Int) = ((hbNat ([] : List ZarSpecEntry) : Nat) : Int)
    from by simp [hbNat]]
  rw [show ([] : List ZarEntry) =
    (([] : List ZarSpecEntry).map zarEntryOf).reverse from by simp]
  rw [show (mkZar es t4).length - 7 =
    (payBytes es).length + (dirBytes es).length from by omega]
  rw [zarLoop_mkZar blast es t4 ht4 hwf ((mkZar es t4).length + 1) es []
    (by simp) hne (by have := brNat_ge es; omega)]
  rw [show mkZar es t4 =
    payBytes es ++ (dirBytes es ++ (t4 ++ zarSignature)) from by
      rw [show mkZar es t4 = payBytes es ++ dirBytes es ++ t4 ++ zarSignature
        from rfl]
      simp [List.append_assoc]]
  rw [zarPass2_spec blast es _ [] hb]
  simp

/-- C3: for every well-formed variant-D (ZAR) archive, the entry list
produced by the backward directory walk is reversed before any payload
is read, so the Extract result lists the recovered files in original
archive order — the filenames of the result are exactly the archive's
names in order, never in reversed-scan order. -/
theorem c3_zar_original_order (blast : List Nat → Option (List Nat))
    (es : List ZarSpecEntry) (t4 : List Nat) (ht4 : t4.length = 4)
    (hne : es ≠ []) (hwf : ∀ e ∈ es, ZarWF e)
    (hb : ∀ e ∈ es, (blast e.payload).isSome) :
    (zarExtract blast (mkZar es t4) =
      .ret (es.map (zarFileOf blast)) none) ∧
    ((es.map (zarFileOf blast)).map (·.Filename) = es.map (·.name)) := by
  refine ⟨zarExtract_mkZar blast es t4 ht4 hne hwf hb, ?_⟩
  simp [zarFileOf]

/-- Witness for C3: the archive with entries named "A", "BB", "CCC"
(distinct lengths) is recovered in original order. -/
theorem c3_zar_original_order_witness :
    zarExtract idBlast (mkZar
      [{ name := [65], payload := [10] },
       { name := [66, 66], payload := [11, 12] },
       { name := [67, 67, 67], payload := [13] }] [0, 0, 0, 0]) =
      .ret [{ Filename := [65], Data := [10], CompressedSize := 1,
              DecompressedSize := 1, Version := "" },
            { Filename := [66, 66], Data := [11, 12], CompressedSize := 2,
              DecompressedSize := 2, Version := "" },
            { Filename := [67, 67, 67], Data := [13], CompressedSize := 1,
              DecompressedSize := 1, Version := "" }] none := by
  have h := (c3_zar_original_order idBlast
    [{ name := [65], payload := [10] },
     { name := [66, 66], payload := [11, 12] },
     { name := [67, 67, 67], payload := [13] }] [0, 0, 0, 0] rfl
    (by simp)
    (by
      intro e he
      simp at he
      rcases he with rfl | rfl | rfl <;>
        exact ⟨by decide, by decide, by decide⟩)
    (by intro e he; simp [idBlast])).1
  rw [h]
  rfl

end Dclextract
